import Mathlib

/-!
# Verification of the blaze compute core (blaze/compute/core.py)

A shallow embedding of the evaluation/dispatch engine of `blaze/compute/core.py`:
the type-break detector (`issubtype`, `type_change`), the leaf allocator
(`makeleaf`, `_reset_leaves`), the bottom-up partial evaluator
(`bottom_up_until_type_break`), the fixpoint driver
(`top_then_bottom_then_top_again_etc`), the resource binder
(`swap_resources_into_scope`) and the two `compute` entry points.

Python runtime values are embedded as the inductive `Val`; runtime classes as
`ValType`.  The expression model (`blaze/expr`) is external to the source file
under verification, so its operations (`_leaves`, `_subterms`, `_subs`,
`_resources`, structural identity) are modelled from the specification where
noted.  Exceptions are modelled with `Except PyErr`; the multiple-dispatch
registry is modelled as a record of the five extension-point handlers, with
`defaultRegistry` holding the default fallbacks registered in core.py.
Unbounded recursion (the fixpoint loop and the recursive reducer) is modelled
with an explicit fuel parameter; exhausted fuel is the `PyErr.fuelOut` outcome,
standing for nontermination / interpreter recursion limits.
-/

set_option autoImplicit false

namespace BlazeCore

/-- Embedded Python runtime values, as far as the compute core inspects them:
`base = (numbers.Real, basestring, date, datetime)` scalars, `None`, the
container classes `list`/`tuple`/`set`, lazy `Iterator` values, and opaque
backend-native objects identified only by their runtime class tag. -/
inductive Val : Type where
  | vInt (n : Int)
  | vStr (s : String)
  | vDate (d : Nat)
  | vNone
  | vList (xs : List Val)
  | vTuple (xs : List Val)
  | vSet (xs : List Val)
  | vIter (xs : List Val)
  | vOpaque (tag : String) (id : Nat)

mutual

def Val.beq : Val → Val → Bool
  | .vInt a, .vInt b => a == b
  | .vStr a, .vStr b => a == b
  | .vDate a, .vDate b => a == b
  | .vNone, .vNone => true
  | .vList a, .vList b => Val.beqList a b
  | .vTuple a, .vTuple b => Val.beqList a b
  | .vSet a, .vSet b => Val.beqList a b
  | .vIter a, .vIter b => Val.beqList a b
  | .vOpaque t a, .vOpaque u b => t == u && a == b
  | _, _ => false

def Val.beqList : List Val → List Val → Bool
  | [], [] => true
  | a :: as, b :: bs => Val.beq a b && Val.beqList as bs
  | _, _ => false

end

mutual

def Val.vsize : Val → Nat
  | .vList xs => 1 + Val.vsizeList xs
  | .vTuple xs => 1 + Val.vsizeList xs
  | .vSet xs => 1 + Val.vsizeList xs
  | .vIter xs => 1 + Val.vsizeList xs
  | _ => 1

def Val.vsizeList : List Val → Nat
  | [] => 0
  | x :: xs => Val.vsize x + Val.vsizeList xs

end

theorem Val.vsize_pos : ∀ v : Val, 1 ≤ Val.vsize v := by
  intro v
  cases v <;> simp [Val.vsize]

theorem val_beq_iff_aux : ∀ n : Nat,
    (∀ a b : Val, Val.vsize a ≤ n → (Val.beq a b = true ↔ a = b)) ∧
    (∀ xs ys : List Val, Val.vsizeList xs ≤ n → (Val.beqList xs ys = true ↔ xs = ys)) := by
  intro n
  induction n with
  | zero =>
    constructor
    · intro a _ h
      exact absurd (le_trans (Val.vsize_pos a) h) (by omega)
    · intro xs ys h
      cases xs with
      | nil =>
        cases ys with
        | nil => simp [Val.beqList]
        | cons y ys => simp [Val.beqList]
      | cons x xs =>
        exfalso
        have := Val.vsize_pos x
        simp [Val.vsizeList] at h
        omega
  | succ n ih =>
    have hval : ∀ a b : Val, Val.vsize a ≤ n + 1 → (Val.beq a b = true ↔ a = b) := by
      intro a b h
      cases a <;> cases b <;> simp [Val.beq]
      case vList.vList xs ys =>
        exact ih.2 xs ys (by simp [Val.vsize] at h; omega)
      case vTuple.vTuple xs ys =>
        exact ih.2 xs ys (by simp [Val.vsize] at h; omega)
      case vSet.vSet xs ys =>
        exact ih.2 xs ys (by simp [Val.vsize] at h; omega)
      case vIter.vIter xs ys =>
        exact ih.2 xs ys (by simp [Val.vsize] at h; omega)
    refine ⟨hval, ?_⟩
    intro xs ys h
    cases xs with
    | nil =>
      cases ys with
      | nil => simp [Val.beqList]
      | cons y ys => simp [Val.beqList]
    | cons x xs =>
      cases ys with
      | nil => simp [Val.beqList]
      | cons y ys =>
        have hx : Val.vsize x ≤ n + 1 := by
          simp [Val.vsizeList] at h; omega
        have hxs : Val.vsizeList xs ≤ n := by
          have := Val.vsize_pos x
          simp [Val.vsizeList] at h; omega
        simp [Val.beqList, hval x y hx, ih.2 xs ys hxs]

theorem val_beq_iff (a b : Val) : Val.beq a b = true ↔ a = b :=
  (val_beq_iff_aux (Val.vsize a)).1 a b (le_refl _)

instance : DecidableEq Val := fun a b => decidable_of_iff _ (val_beq_iff a b)

/-- The runtime class of an embedded value, as used by `type(x)` in
`type_change` and by `sorted(..., key=type)` at its call site. -/
inductive ValType : Type where
  | tInt
  | tStr
  | tDate
  | tNone
  | tList
  | tTuple
  | tSet
  | tIter
  | tOpaque (tag : String)
  deriving DecidableEq

def Val.valType : Val → ValType
  | .vInt _ => .tInt
  | .vStr _ => .tStr
  | .vDate _ => .tDate
  | .vNone => .tNone
  | .vList _ => .tList
  | .vTuple _ => .tTuple
  | .vSet _ => .tSet
  | .vIter _ => .tIter
  | .vOpaque t _ => .tOpaque t

/-- Embeds `isinstance(x, base)` with `base = (numbers.Real, basestring, date, datetime)`
(core.py line 15): the primitive scalar test. -/
def isBase : Val → Bool
  | .vInt _ => true
  | .vStr _ => true
  | .vDate _ => true
  | _ => false

/-- Embeds `issubclass(a, b)` on the embedded runtime classes.  The classes modelled
here (`int`, `str`, `date`/`datetime` collapsed, `NoneType`, `list`, `tuple`,
`set`, `Iterator`, opaque backend classes) have no non-trivial subclass
relations among each other, so the test is class equality. -/
def issubclassT (a b : ValType) : Bool := a == b

/-- Membership of `(tuple, list, set)`, the container classes named in
`issubtype` (core.py lines 87 and 89). -/
def isContainerT (a : ValType) : Bool := a == .tTuple || a == .tList || a == .tSet

/-- Embeds `issubtype(a, b)` (core.py lines 83-91): a custom issubclass that also
treats the `tuple`/`list`/`set` containers and `Iterator` as mutually
substitutable. -/
def issubtype (a b : ValType) : Bool :=
  if issubclassT a b then true
  else if isContainerT a && issubclassT b .tIter then true
  else if isContainerT b && issubclassT a .tIter then true
  else false

/-- Embeds `type_change(old, new)` (core.py lines 93-112): was there a significant
type change between old and new data?  All-primitive value lists never break;
a length difference breaks; otherwise the two lists of runtime types are
compared positionally with `issubtype` (the Python `map(issubtype, new_types,
old_types)` over the two lists in their given order). -/
def type_change (old new : List Val) : Bool :=
  if (old ++ new).all isBase then false
  else if old.length != new.length then true
  else !((List.zipWith issubtype (new.map Val.valType) (old.map Val.valType)).all id)

/-- A canonical total key on runtime classes, standing for the (arbitrary but
consistent) ordering the host interpreter gives distinct type objects under
`sorted(..., key=type)`.  All opaque backend classes share one key; the
comparison below only ever inspects the types of the sorted values, so the
choice of key among distinct opaque classes is immaterial. -/
def typeKey : ValType → Nat
  | .tInt => 0
  | .tStr => 1
  | .tDate => 2
  | .tNone => 3
  | .tList => 4
  | .tTuple => 5
  | .tSet => 6
  | .tIter => 7
  | .tOpaque _ => 8

def insertByTypeKey (x : Val) : List Val → List Val
  | [] => [x]
  | y :: ys =>
    if typeKey (Val.valType x) ≤ typeKey (Val.valType y) then x :: y :: ys
    else y :: insertByTypeKey x ys

/-- Embeds `sorted(values, key=type)` as used at the call site of `type_change` in
`bottom_up_until_type_break` (core.py lines 332-333). -/
def sortByType (xs : List Val) : List Val := xs.foldr insertByTypeKey []

/-- The Type-Break Detector as §4.2 of the specification words it: after the
primitive and length checks, it "orders both groupings by a canonical type
ordering" before the pairwise `issubtype` comparison.  Stated only to be
compared against `type_change`, which performs no reordering of its own. -/
def type_change_sorted (old new : List Val) : Bool :=
  if (old ++ new).all isBase then false
  else if old.length != new.length then true
  else !((List.zipWith issubtype ((sortByType new).map Val.valType)
          ((sortByType old).map Val.valType)).all id)

/-- Modelled from the spec: the external Expression Model (§3) — "immutable
node; attributes: kind, shape/type descriptor, ordered list of input
expressions, display name (may be empty)".  The expression grammar lives in
`blaze/expr`, outside the source file under verification.  `symbol` is a
free-variable leaf with a disambiguating token (`Symbol(name, dshape, token)`,
token defaulting to `None`); `dataLeaf` is an "interactive" leaf carrying
attached concrete data (the form normalized away by the Resource Binder); `app`
is a compound node with a kind, display name, shape and input list.  Equality
of this inductive is the structural identity of §3 (`isidentical` and dict-key
equality coincide on it). -/
inductive Expr : Type where
  | symbol (name : String) (shape : String) (token : Option Nat)
  | dataLeaf (name : String) (shape : String) (data : Val)
  | app (kind : String) (name : String) (shape : String) (inputs : List Expr)

mutual

def Expr.beq : Expr → Expr → Bool
  | .symbol n1 s1 t1, .symbol n2 s2 t2 => n1 == n2 && s1 == s2 && t1 == t2
  | .dataLeaf n1 s1 d1, .dataLeaf n2 s2 d2 => n1 == n2 && s1 == s2 && Val.beq d1 d2
  | .app k1 n1 s1 i1, .app k2 n2 s2 i2 =>
      k1 == k2 && n1 == n2 && s1 == s2 && Expr.beqList i1 i2
  | _, _ => false

def Expr.beqList : List Expr → List Expr → Bool
  | [], [] => true
  | a :: as, b :: bs => Expr.beq a b && Expr.beqList as bs
  | _, _ => false

end

mutual

def Expr.esize : Expr → Nat
  | .app _ _ _ xs => 1 + Expr.esizeList xs
  | _ => 1

def Expr.esizeList : List Expr → Nat
  | [] => 0
  | x :: xs => Expr.esize x + Expr.esizeList xs

end

theorem Expr.esize_pos : ∀ e : Expr, 1 ≤ Expr.esize e := by
  intro e
  cases e <;> simp [Expr.esize]

theorem expr_beq_iff_aux : ∀ n : Nat,
    (∀ a b : Expr, Expr.esize a ≤ n → (Expr.beq a b = true ↔ a = b)) ∧
    (∀ xs ys : List Expr, Expr.esizeList xs ≤ n → (Expr.beqList xs ys = true ↔ xs = ys)) := by
  intro n
  induction n with
  | zero =>
    constructor
    · intro a _ h
      exact absurd (le_trans (Expr.esize_pos a) h) (by omega)
    · intro xs ys h
      cases xs with
      | nil =>
        cases ys with
        | nil => simp [Expr.beqList]
        | cons y ys => simp [Expr.beqList]
      | cons x xs =>
        exfalso
        have := Expr.esize_pos x
        simp [Expr.esizeList] at h
        omega
  | succ n ih =>
    have hval : ∀ a b : Expr, Expr.esize a ≤ n + 1 → (Expr.beq a b = true ↔ a = b) := by
      intro a b h
      cases a <;> cases b <;> simp [Expr.beq]
      case symbol.symbol => tauto
      case dataLeaf.dataLeaf n1 s1 d1 n2 s2 d2 =>
        rw [val_beq_iff]
        tauto
      case app.app k1 n1 s1 i1 k2 n2 s2 i2 =>
        rw [ih.2 i1 i2 (by simp [Expr.esize] at h; omega)]
        tauto
    refine ⟨hval, ?_⟩
    intro xs ys h
    cases xs with
    | nil =>
      cases ys with
      | nil => simp [Expr.beqList]
      | cons y ys => simp [Expr.beqList]
    | cons x xs =>
      cases ys with
      | nil => simp [Expr.beqList]
      | cons y ys =>
        have hx : Expr.esize x ≤ n + 1 := by
          simp [Expr.esizeList] at h; omega
        have hxs : Expr.esizeList xs ≤ n := by
          have := Expr.esize_pos x
          simp [Expr.esizeList] at h; omega
        simp [Expr.beqList, hval x y hx, ih.2 xs ys hxs]

theorem expr_beq_iff (a b : Expr) : Expr.beq a b = true ↔ a = b :=
  (expr_beq_iff_aux (Expr.esize a)).1 a b (le_refl _)

instance : DecidableEq Expr := fun a b => decidable_of_iff _ (expr_beq_iff a b)

/-- Embeds `expr._name`: the display name attribute. -/
def Expr.exprName : Expr → String
  | .symbol n _ _ => n
  | .dataLeaf n _ _ => n
  | .app _ n _ _ => n

/-- Embeds `expr.dshape`: the shape/type descriptor attribute. -/
def Expr.exprShape : Expr → String
  | .symbol _ s _ => s
  | .dataLeaf _ s _ => s
  | .app _ _ s _ => s

/-- Embeds `expr._inputs`: the ordered list of direct input expressions. -/
def Expr.exprInputs : Expr → List Expr
  | .app _ _ _ xs => xs
  | _ => []

def Expr.isSymbolB : Expr → Bool
  | .symbol _ _ _ => true
  | _ => false

mutual

/-- Modelled from the spec: `expr._subterms()` — "a set of all sub-nodes
("subterms")" (§3), enumerated here in preorder with possible repeats (the
engine only consumes it through set/membership constructions). -/
def Expr.subterms : Expr → List Expr
  | .symbol n sh t => [.symbol n sh t]
  | .dataLeaf n sh d => [.dataLeaf n sh d]
  | .app k n sh xs => .app k n sh xs :: Expr.subtermsList xs

def Expr.subtermsList : List Expr → List Expr
  | [] => []
  | e :: es => Expr.subterms e ++ Expr.subtermsList es

end

/-- First-occurrence deduplication, as `toolz.unique` and Python set iteration
provide over structurally-identified expressions. -/
def uniqueAux {α : Type} [DecidableEq α] : List α → List α → List α
  | [], _ => []
  | x :: xs, seen => if x ∈ seen then uniqueAux xs seen else x :: uniqueAux xs (x :: seen)

def uniqueList {α : Type} [DecidableEq α] (l : List α) : List α := uniqueAux l []

/-- Modelled from the spec: `expr._leaves()` — "a set of terminal free-variable
symbols reachable from it ("leaves")" (§3).  The same enumeration backs the
`set(x for x in expr._subterms() if isinstance(x, Symbol))` computed by the
single-input `compute` wrapper (core.py line 67). -/
def Expr.leaves (e : Expr) : List Expr :=
  uniqueList ((Expr.subterms e).filter Expr.isSymbolB)

mutual

/-- Modelled from the spec: `expr._subs(d)` — "a substitution operation that
returns a new tree with named nodes replaced" (§2): each node structurally
identical to a key of the mapping is replaced by the key's image, top-down. -/
def Expr.subs (m : List (Expr × Expr)) : Expr → Expr
  | .symbol n sh t =>
    match (m.find? (fun p => p.1 == Expr.symbol n sh t)).map Prod.snd with
    | some r => r
    | none => .symbol n sh t
  | .dataLeaf n sh d =>
    match (m.find? (fun p => p.1 == Expr.dataLeaf n sh d)).map Prod.snd with
    | some r => r
    | none => .dataLeaf n sh d
  | .app k n sh xs =>
    match (m.find? (fun p => p.1 == Expr.app k n sh xs)).map Prod.snd with
    | some r => r
    | none => .app k n sh (Expr.subsList m xs)

def Expr.subsList (m : List (Expr × Expr)) : List Expr → List Expr
  | [] => []
  | e :: es => Expr.subs m e :: Expr.subsList m es

end

/-- The exceptional outcomes the compute core can produce or observe.
`notImplemented` is the "unsupported" signal of the dispatch fallbacks
(`NotImplementedError`); `keyError` a failed `dict[...]` subscript;
`valueErrorAmbiguous` the `ValueError("Give compute dictionary input, ...")`
of the single-input `compute` wrapper; `valueErrorUnpack` the `ValueError` of
unpacking `zip(*[])` when a reduction step has no inputs; `fuelOut` stands for
exhausted fuel (nontermination / recursion limits), which no Python exception
corresponds to. -/
inductive PyErr : Type where
  | notImplemented
  | keyError
  | valueErrorAmbiguous
  | valueErrorUnpack
  | fuelOut
  deriving DecidableEq

instance instDecEqExceptBlaze {ε α : Type} [DecidableEq ε] [DecidableEq α] :
    DecidableEq (Except ε α)
  | .ok a, .ok b =>
    if h : a = b then .isTrue (congrArg Except.ok h)
    else .isFalse (fun hc => h (Except.ok.inj hc))
  | .error a, .error b =>
    if h : a = b then .isTrue (congrArg Except.error h)
    else .isFalse (fun hc => h (Except.error.inj hc))
  | .ok _, .error _ => .isFalse (fun hc => Except.noConfusion hc)
  | .error _, .ok _ => .isFalse (fun hc => Except.noConfusion hc)

/-- A result handed around by the driver: dispatch defaults may return the
expression itself (`compute_down`'s single-argument fallback), so results are
either an expression or a backend value. -/
abbrev Res : Type := Sum Expr Val

/-- A scope: the Python `dict` mapping expressions (by structural identity) to
backend values, embedded as an association list whose earlier entries shadow
later ones under `Scope.find?`. -/
abbrev Scope : Type := List (Expr × Val)

def Scope.find? (s : Scope) (e : Expr) : Option Val :=
  (List.find? (fun p => p.1 == e) s).map Prod.snd

/-- Embeds `expr in scope`. -/
def Scope.memKey (s : Scope) (e : Expr) : Bool := (Scope.find? s e).isSome

/-- Embeds `scope.get(leaf)`: total lookup defaulting to `None`. -/
def Scope.getNone (s : Scope) (e : Expr) : Val := (Scope.find? s e).getD .vNone

/-- Embeds `scope[leaf]`: lookup raising `KeyError` when absent. -/
def Scope.getBang (s : Scope) (e : Expr) : Except PyErr Val :=
  match Scope.find? s e with
  | some v => .ok v
  | none => .error .keyError

def Scope.values (s : Scope) : List Val := s.map Prod.snd

def Scope.keys (s : Scope) : List Expr := s.map Prod.fst

def Scope.containsKey (s : Scope) (e : Expr) : Bool := Scope.memKey s e

/-- Normalization of an association list to Python-dict semantics: when a key
occurs several times, the last occurrence wins (as when a `dict` is built from
a sequence of pairs, or updated in place). -/
def dedupKeys : Scope → Scope
  | [] => []
  | (k, v) :: rest => if Scope.containsKey rest k then dedupKeys rest else (k, v) :: dedupKeys rest

/-- Embeds `toolz.merge(ds)`: later mappings win on key collision. -/
def Scope.mergeAll (ds : List Scope) : Scope := dedupKeys ds.flatten

/-- Embeds `toolz.merge(a, b)`: entries of `b` override entries of `a`. -/
def Scope.merge2 (a b : Scope) : Scope := dedupKeys (a ++ b)

/-- The Leaf Allocator's process-global mutable state (core.py lines 223-224):
the structural-identity memo table `_leaf_cache` and the set `_used_tokens` of
assigned `(name, token)` pairs.  `_reset_leaves()` is the empty state. -/
structure LeafState : Type where
  cache : List (Expr × Expr)
  used : List (String × Option Nat)
  deriving DecidableEq

/-- Embeds `_reset_leaves()` (core.py lines 225-227). -/
def LeafState.reset : LeafState := ⟨[], []⟩

def lookupCache (c : List (Expr × Expr)) (e : Expr) : Option Expr :=
  (List.find? (fun p => p.1 == e) c).map Prod.snd

/-- Embeds `expr._name or '_'` (core.py line 252). -/
def leafName (e : Expr) : String := if Expr.exprName e = "" then "_" else Expr.exprName e

/-- One above the largest integer token recorded for `name`: a token sure to be
free, bounding the `itertools.count()` scan. -/
def maxTokFor (name : String) : List (String × Option Nat) → Nat
  | [] => 0
  | (n, t) :: rest =>
    max (if n = name then (match t with | some k => k + 1 | none => 0) else 0)
      (maxTokFor name rest)

/-- The `for token in itertools.count(): if (name, token) not in _used_tokens:
break` scan (core.py lines 257-259), run with enough fuel to reach a free
token. -/
def scanTok (name : String) (used : List (String × Option Nat)) : Nat → Nat → Nat
  | 0, k => k
  | fuel + 1, k => if (name, (some k : Option Nat)) ∈ used then scanTok name used fuel (k + 1) else k

/-- The token chosen by `makeleaf` for a fresh allocation: `None` when
`(name, None)` is still free, otherwise the first free integer token. -/
def freshTok (name : String) (used : List (String × Option Nat)) : Option Nat :=
  if (name, (none : Option Nat)) ∈ used then
    some (scanTok name used (maxTokFor name used) 0)
  else none

/-- The accessors a `Symbol(name, dshape, token)` result exposes; both default
to the `symbol` constructor's fields. -/
def Expr.symNameOf : Expr → String
  | .symbol n _ _ => n
  | e => Expr.exprName e

def Expr.symTokenOf : Expr → Option Nat
  | .symbol _ _ t => t
  | _ => none

/-- Embeds `makeleaf(expr)` (core.py lines 229-263): return the cached symbol when
`expr` was already allocated one; otherwise build `Symbol(name, expr.dshape,
token)` with the first free token for `name`, record the `(name, token)` pair
as used and cache the mapping. -/
def makeleaf (st : LeafState) (e : Expr) : Expr × LeafState :=
  match lookupCache st.cache e with
  | some s => (s, st)
  | none =>
    let name := leafName e
    let token := freshTok name st.used
    let result := Expr.symbol name (Expr.exprShape e) token
    (result, ⟨st.cache ++ [(e, result)], st.used ++ [(name, token)]⟩)

/-- Modelled from the spec: `expr._resources()` — "retrieval of
attached-resource mapping" (§6): the mapping from data-carrying leaf nodes to
their attached data, with dict semantics over the preorder enumeration. -/
def Expr.resourcesList (e : Expr) : List (Expr × Val) :=
  (Expr.subterms e).filterMap (fun s =>
    match s with
    | .dataLeaf n sh d => some (.dataLeaf n sh d, d)
    | _ => none)

def Expr.resources (e : Expr) : Scope := dedupKeys (Expr.resourcesList e)

/-- The state of the process-wide Dispatch Registry, as the compute core sees
it: one resolved handler per extension point.  Each handler already folds in
the multiple-dispatch resolution over the runtime kinds of its arguments;
`.error .notImplemented` is the no-match "unsupported" signal. -/
structure Registry : Type where
  pre_compute : Expr → Val → Option Scope → Val
  post_compute : Expr → Res → Scope → Res
  optimize : Expr → List Val → Except PyErr Expr
  compute_up : Expr → List Val → Scope → Except PyErr Val
  compute_down : Expr → List Val → Except PyErr Res

/-- The default fallbacks registered in core.py itself, with no backend
handlers added:
* `pre_compute` / `post_compute` (lines 18-27): identity;
* `optimize` (lines 30-33): registered for `(Expr, object)`, so identity when
  called with exactly one data argument and "unsupported" otherwise;
* `compute_up` (lines 36-40): raises `NotImplementedError` for every call the
  engine makes (the single-argument scalar/container registrations never match
  a call whose first argument is an expression node);
* `compute_down` (lines 74-80): registered for a single argument, so it
  returns the expression itself when called with no leaf data and signals
  "unsupported" otherwise. -/
def defaultRegistry : Registry :=
  ⟨fun _ v _ => v,
   fun _ r _ => r,
   fun e args => if args.length = 1 then .ok e else .error .notImplemented,
   fun _ _ _ => .error .notImplemented,
   fun e args => if args.isEmpty then .ok (.inl e) else .error .notImplemented⟩

/-- One keyword argument of `compute`: absent (`kwargs.get` falls back to the
module-level hook), present but falsy (the hook is disabled for the call), or
an override callable. -/
inductive KwOpt (α : Type) : Type where
  | absent
  | disabled
  | override (f : α)

/-- Embeds `kwargs.get(key, default)` followed by the truthiness gate: the hook to
apply, or `none` when the hook is disabled. -/
def KwOpt.eff {α : Type} : KwOpt α → α → Option α
  | .absent, d => some d
  | .disabled, _ => none
  | .override f, _ => some f

/-- The recognized configuration options of `compute`: `optimize` and
`pre_compute`. -/
structure Config : Type where
  optimizeKw : KwOpt (Expr → List Val → Except PyErr Expr)
  preComputeKw : KwOpt (Expr → Val → Option Scope → Val)

/-- Empty `**kwargs`. -/
def Config.empty : Config := ⟨.absent, .absent⟩

/-- The leaf-value collection `[scope.get(leaf) for leaf in expr._leaves()]`
shared by the fixpoint driver (core.py line 141) and the type-break comparison
of the bottom-up reducer (line 329): total lookups contributing `None` for
unbound leaves. -/
def leafData (scope : Scope) (leaves : List Expr) : List Val :=
  leaves.map (Scope.getNone scope)

/-- Embeds `toolz.merge(new_scopes)` over the scopes returned for the reduced inputs
(core.py line 324). -/
def mergedScope (pairs : List (Expr × Scope)) : Scope :=
  Scope.mergeAll (pairs.map Prod.snd)

/-- Embeds `expr._subs(dict((i, e) for i, e in zip(inputs, exprs) if not
i.isidentical(e)))` (core.py lines 325-326): substitute each distinct direct
input by its reduced counterpart. -/
def reducedSubst (e : Expr) (pairs : List (Expr × Scope)) : Expr :=
  Expr.subs
    ((List.zip (uniqueList (Expr.exprInputs e)) (pairs.map Prod.fst)).filter
      (fun p => !(p.1 == p.2))) e

/-- The values the original leaves of `expr` hold in the incoming scope
(core.py lines 328-329). -/
def oldLeafData (e : Expr) (scope : Scope) : List Val := leafData scope (Expr.leaves e)

/-- The type-break test of `bottom_up_until_type_break` (core.py lines
332-333): both value collections are sorted by runtime type before
`type_change` compares them. -/
def breakAt (e : Expr) (scope : Scope) (pairs : List (Expr × Scope)) : Bool :=
  type_change (sortByType (Scope.values (mergedScope pairs)))
    (sortByType (oldLeafData e scope))

/-- The tail of `bottom_up_until_type_break` after the recursive reduction of
the distinct inputs (core.py lines 324-338): merge the returned scopes,
substitute the reduced inputs, and either stop at a detected type break or
allocate a fresh leaf bound to the `compute_up` result. -/
def buutbStep (R : Registry) (e : Expr) (scope : Scope) (pairs : List (Expr × Scope))
    (st : LeafState) : Except PyErr (Expr × Scope × LeafState) :=
  let new_scope := mergedScope pairs
  let new_expr := reducedSubst e pairs
  if breakAt e scope pairs then .ok (new_expr, new_scope, st)
  else
    let p := makeleaf st e
    do
      let dataVals ← (Expr.exprInputs new_expr).mapM (Scope.getBang new_scope)
      let v ← R.compute_up new_expr dataVals new_scope
      .ok (p.1, [(p.1, v)], p.2)

/-- The list comprehension `[bottom_up_until_type_break(i, scope) for i in
inputs]` (core.py lines 321-322), threading the allocator state left to
right. -/
def buutbListStep (recur : Expr → Scope → LeafState → Except PyErr (Expr × Scope × LeafState))
    (scope : Scope) (acc : Except PyErr (List (Expr × Scope) × LeafState)) (i : Expr) :
    Except PyErr (List (Expr × Scope) × LeafState) := do
  let (ps, st0) ← acc
  let (e1, s1, st1) ← recur i scope st0
  .ok (ps ++ [(e1, s1)], st1)

def buutbList (recur : Expr → Scope → LeafState → Except PyErr (Expr × Scope × LeafState))
    (inputs : List Expr) (scope : Scope) (st : LeafState) :
    Except PyErr (List (Expr × Scope) × LeafState) :=
  inputs.foldl (buutbListStep recur scope) (.ok ([], st))

/-- Embeds `bottom_up_until_type_break(expr, scope)` (core.py lines 270-338).  An
expression already bound in scope is renamed to a canonical leaf; otherwise the
distinct direct inputs are reduced recursively and `buutbStep` finishes the
round.  An unbound expression with no inputs reproduces the `ValueError` Python
raises when unpacking `zip(*[])`. -/
def buutb (R : Registry) : Nat → Expr → Scope → LeafState → Except PyErr (Expr × Scope × LeafState)
  | 0, _, _, _ => .error .fuelOut
  | fuel + 1, e, scope, st =>
    match Scope.find? scope e with
    | some v =>
      let p := makeleaf st e
      .ok (p.1, [(p.1, v)], p.2)
    | none =>
      match uniqueList (Expr.exprInputs e) with
      | [] => .error .valueErrorUnpack
      | i :: is => do
        let (pairs, st1) ← buutbList (buutb R fuel) (i :: is) scope st
        buutbStep R e scope pairs st1

/-- The guarded re-application of Optimize inside the fixpoint loop (core.py
lines 161-168): the values bound to the leaves of `new_expr` are gathered with
raising lookups, the optimizer is applied, and only the "unsupported" signal is
caught (leaving the expression unchanged); every other failure propagates. -/
def applyLoopOptimize (optEff : Option (Expr → List Val → Except PyErr Expr))
    (new_expr : Expr) (new_scope2 : Scope) : Except PyErr Expr :=
  match optEff with
  | none => .ok new_expr
  | some opt =>
    match (do
        let args ← (Expr.leaves new_expr).mapM (Scope.getBang new_scope2)
        opt new_expr args : Except PyErr Expr) with
    | .ok e2 => .ok e2
    | .error .notImplemented => .ok new_expr
    | .error err => .error err

/-- The PreCompute re-application of the fixpoint loop (core.py lines 155-160):
gated on the effective hook, but invoking the module-level default
`pre_compute` — with `new_expr`, not the bound key, as its expression argument
— exactly as line 156 does. -/
def loopPreApply (R : Registry) (cfg : Config) (new_expr : Expr) (new_scope : Scope) : Scope :=
  match KwOpt.eff cfg.preComputeKw R.pre_compute with
  | some _ => new_scope.map (fun p => (p.1, R.pre_compute new_expr p.2 (some new_scope)))
  | none => new_scope

/-- The body of the fixpoint loop after `compute_down` has signalled
"unsupported" (core.py lines 149-171): bottom-up reduction, the PreCompute
re-application, the Optimize re-application, and the recursive call.  Two
infelicities of the source are preserved exactly: the PreCompute
re-application is gated on the configured hook but invokes the module-level
default `pre_compute` (line 156 calls `pre_compute`, not `pre_compute_`) with
`new_expr` as its expression argument; and the recursive call on line 171
passes no `**kwargs`, so `recur` is the driver with empty configuration. -/
def driverBottomUp (R : Registry) (cfg : Config)
    (recur : Expr → Scope → LeafState → Except PyErr (Res × LeafState))
    (fuel : Nat) (e : Expr) (scope : Scope) (st : LeafState) :
    Except PyErr (Res × LeafState) := do
  let (new_expr, new_scope, st1) ← buutb R fuel e scope st
  let new_scope2 := loopPreApply R cfg new_expr new_scope
  let new_expr2 ← applyLoopOptimize (KwOpt.eff cfg.optimizeKw R.optimize) new_expr new_scope2
  recur new_expr2 new_scope2 st1

/-- Embeds `top_then_bottom_then_top_again_etc(expr, scope, **kwargs)` (core.py lines
115-171): return the bound value when the expression is a scope key, try the
whole-tree `compute_down` fast path, and otherwise run one bottom-up round and
recurse — with empty `**kwargs`, as the source's recursive call drops them. -/
def driver (R : Registry) (cfg : Config) :
    Nat → Expr → Scope → LeafState → Except PyErr (Res × LeafState)
  | 0, _, _, _ => .error .fuelOut
  | fuel + 1, e, scope, st =>
    match Scope.find? scope e with
    | some v => .ok (.inr v, st)
    | none =>
      match R.compute_down e (leafData scope (Expr.leaves e)) with
      | .ok r => .ok (r, st)
      | .error .notImplemented =>
        driverBottomUp R cfg (driver R Config.empty fuel) fuel e scope st
      | .error err => .error err

/-- Embeds `symbol_dict = dict((t, Symbol(t._name, t.dshape)) for t in resources)`
(core.py line 385): each data-carrying leaf mapped to a plain symbol of the
same name and shape (token defaulting to `None`). -/
def resourceSymbolDict (e : Expr) : List (Expr × Expr) :=
  (Expr.resources e).map
    (fun p => (p.1, Expr.symbol (Expr.exprName p.1) (Expr.exprShape p.1) none))

/-- Embeds `resources = dict((symbol_dict[k], v) for k, v in resources.items())`
(core.py line 386): the derived scope binding each substituted symbol to the
attached data. -/
def derivedResourceScope (e : Expr) : Scope :=
  dedupKeys ((Expr.resources e).map (fun p =>
    (Expr.symbol (Expr.exprName p.1) (Expr.exprShape p.1) none, p.2)))

/-- Embeds `swap_resources_into_scope(expr, scope)` (core.py lines 369-390): replace
each data-carrying leaf by a plain `Symbol(t._name, t.dshape)`, bind those
symbols to the attached data, and merge with the caller's scope, the caller's
bindings winning on collision. -/
def swap_resources_into_scope (e : Expr) (scope : Scope) : Expr × Scope :=
  (Expr.subs (resourceSymbolDict e) e, Scope.merge2 (derivedResourceScope e) scope)

/-- Embeds `[v for e, v in d3.items() if e in expr2]` (core.py line 416): the values
of scope entries whose keys occur in the expression. -/
def entryOptimizeArgs (d3 : Scope) (e2 : Expr) : List Val :=
  (d3.filter (fun p => decide (p.1 ∈ Expr.subterms e2))).map Prod.snd

/-- The guarded Optimize application of the entry point (core.py lines
414-420): only the "unsupported" signal is caught, keeping the expression
unchanged. -/
def applyEntryOptimize (optEff : Option (Expr → List Val → Except PyErr Expr))
    (e2 : Expr) (d3 : Scope) : Except PyErr Expr :=
  match optEff with
  | none => .ok e2
  | some opt =>
    match opt e2 (entryOptimizeArgs d3 e2) with
    | .ok e3 => .ok e3
    | .error .notImplemented => .ok e2
    | .error err => .error err

/-- The entry point's PreCompute application (core.py lines 409-412): the
effective hook mapped over every bound value, or the scope unchanged when the
hook is disabled. -/
def entryPreApply (R : Registry) (cfg : Config) (d2 : Scope) : Scope :=
  match KwOpt.eff cfg.preComputeKw R.pre_compute with
  | some pc => d2.map (fun p => (p.1, pc p.1 p.2 none))
  | none => d2

/-- Embeds `compute(expr, d, **kwargs)` for a scope mapping (core.py lines 393-422):
reset the allocator, run the Resource Binder, apply the effective PreCompute to
every bound value, apply the effective Optimize to the bound expression,
run the fixpoint driver (receiving the `**kwargs`), and apply PostCompute. -/
def computeDict (R : Registry) (cfg : Config) (fuel : Nat) (e : Expr) (d : Scope) :
    Except PyErr Res := do
  let st0 := LeafState.reset
  let (e2, d2) := swap_resources_into_scope e d
  let d3 := entryPreApply R cfg d2
  let e3 ← applyEntryOptimize (KwOpt.eff cfg.optimizeKw R.optimize) e2 d3
  let (result, _) ← driver R cfg fuel e3 d3 st0
  .ok (R.post_compute e3 result d3)

/-- Embeds `compute(expr, o, **kwargs)` for a single non-dict input (core.py lines
53-71): when the expression has exactly one free symbol, bind it to the input
and delegate to the mapping form; otherwise raise the Ambiguous-Binding
`ValueError`. -/
def computeSingle (R : Registry) (cfg : Config) (fuel : Nat) (e : Expr) (v : Val) :
    Except PyErr Res :=
  match Expr.leaves e with
  | [s] => computeDict R cfg fuel e [(s, v)]
  | _ => .error .valueErrorAmbiguous

/-! ### Concrete expressions, registries and configurations

Used by the concrete instances among the theorems below. -/

/-- Embeds `Symbol('x', 'int')`. -/
def xSym : Expr := .symbol "x" "int" none

/-- A unary compound node `g(x)` with empty display name. -/
def gNode : Expr := .app "g" "" "int" [xSym]

/-- A unary compound node `f(g(x))` with empty display name. -/
def fNode : Expr := .app "f" "" "int" [gNode]

/-- A unary compound node `add(x)` with empty display name. -/
def addNode : Expr := .app "add" "" "int" [xSym]

/-- A compound node with no inputs and no free symbols. -/
def litNode : Expr := .app "lit" "lit" "int" []

/-- An interactive leaf named `t` carrying the attached data `[1, 2, 3]`. -/
def tData : Expr := .dataLeaf "t" "3 * int" (.vList [.vInt 1, .vInt 2, .vInt 3])

/-- A PreCompute hook that marks every value it processes by wrapping it in a
tuple, so that its (non-)application is observable in results. -/
def tagHook : Expr → Val → Option Scope → Val := fun _ v _ => .vTuple [v]

/-- A backend ComputeUp handler: computes `g`-nodes to an opaque backend value
(a runtime class unrelated to the incoming data, forcing a type break one
level up) and `f`-nodes to the list of their input values. -/
def backendUp : Expr → List Val → Scope → Except PyErr Val := fun e args _ =>
  match e with
  | .app "g" _ _ _ => .ok (.vOpaque "res" 0)
  | .app "f" _ _ _ => .ok (.vList args)
  | _ => .error .notImplemented

/-- The default registry extended with the `backendUp` ComputeUp handler. -/
def backendRegistry : Registry :=
  ⟨defaultRegistry.pre_compute, defaultRegistry.post_compute, defaultRegistry.optimize,
   backendUp, defaultRegistry.compute_down⟩

/-- The `backendRegistry` with `tagHook` installed as the module-level default
PreCompute hook (no per-call configuration). -/
def taggedRegistry : Registry :=
  ⟨tagHook, defaultRegistry.post_compute, defaultRegistry.optimize,
   backendUp, defaultRegistry.compute_down⟩

/-- A registry whose ComputeUp handler returns the constant `5`. -/
def constUpRegistry : Registry :=
  ⟨defaultRegistry.pre_compute, defaultRegistry.post_compute, defaultRegistry.optimize,
   fun _ _ _ => .ok (.vInt 5), defaultRegistry.compute_down⟩

/-- Embeds `compute(..., pre_compute=tagHook)`: the PreCompute hook overridden for one
call. -/
def tagConfig : Config := ⟨.absent, .override tagHook⟩

/-! ### General lemmas about the embedded operations -/

theorem option_orElse_some {α : Type} (v : α) (f : Unit → Option α) :
    (Option.orElse (some v) f) = some v := rfl

theorem option_orElse_none {α : Type} (f : Unit → Option α) :
    (Option.orElse none f) = f () := rfl

theorem find?_cons_self (k : Expr) (v : Val) (rest : Scope) :
    Scope.find? ((k, v) :: rest) k = some v := by
  unfold Scope.find?
  rw [List.find?_cons_of_pos]
  · rfl
  · simp

theorem find?_cons_ne (a k : Expr) (v : Val) (rest : Scope) (h : a ≠ k) :
    Scope.find? ((a, v) :: rest) k = Scope.find? rest k := by
  unfold Scope.find?
  rw [List.find?_cons_of_neg]
  simp [h]

theorem scope_find?_append (l1 l2 : Scope) (k : Expr) :
    Scope.find? (l1 ++ l2) k = ((Scope.find? l1 k).orElse (fun _ => Scope.find? l2 k)) := by
  induction l1 with
  | nil => simp [Scope.find?, option_orElse_none]
  | cons x xs ih =>
    obtain ⟨a, v⟩ := x
    by_cases h : a = k
    · subst h
      rw [List.cons_append, find?_cons_self, find?_cons_self, option_orElse_some]
    · rw [List.cons_append, find?_cons_ne _ _ _ _ h, find?_cons_ne _ _ _ _ h, ih]

theorem containsKey_eq_isSome (s : Scope) (k : Expr) :
    Scope.containsKey s k = (Scope.find? s k).isSome := rfl

theorem mem_keys_of_find?_isSome (s : Scope) (k : Expr) :
    (Scope.find? s k).isSome = true → k ∈ Scope.keys s := by
  induction s with
  | nil => simp [Scope.find?]
  | cons x xs ih =>
    obtain ⟨a, v⟩ := x
    by_cases h : a = k
    · intro _
      simp [Scope.keys, h]
    · rw [find?_cons_ne _ _ _ _ h]
      intro hs
      simp only [Scope.keys, List.map_cons, List.mem_cons]
      right
      simpa [Scope.keys] using ih hs

theorem find?_isSome_of_mem_keys (s : Scope) (k : Expr) :
    k ∈ Scope.keys s → (Scope.find? s k).isSome = true := by
  induction s with
  | nil => simp [Scope.keys]
  | cons x xs ih =>
    obtain ⟨a, v⟩ := x
    intro hk
    by_cases h : a = k
    · subst h
      rw [find?_cons_self]
      rfl
    · rw [find?_cons_ne _ _ _ _ h]
      apply ih
      simp only [Scope.keys, List.map_cons, List.mem_cons] at hk
      rcases hk with hk | hk
      · exact absurd hk.symm h
      · simpa [Scope.keys] using hk

theorem dedupKeys_sound (s : Scope) (k : Expr) :
    (Scope.find? (dedupKeys s) k).isSome = (Scope.find? s k).isSome := by
  induction s with
  | nil => simp [dedupKeys]
  | cons x xs ih =>
    obtain ⟨a, v⟩ := x
    by_cases hmem : Scope.containsKey xs a
    · simp only [dedupKeys, hmem, if_true]
      by_cases h : a = k
      · subst h
        rw [find?_cons_self, ih]
        rw [containsKey_eq_isSome] at hmem
        simp [hmem]
      · rw [find?_cons_ne _ _ _ _ h, ih]
    · simp only [dedupKeys, hmem, Bool.false_eq_true, if_false]
      by_cases h : a = k
      · subst h
        rw [find?_cons_self, find?_cons_self]
      · rw [find?_cons_ne _ _ _ _ h, find?_cons_ne _ _ _ _ h, ih]

theorem dedupKeys_keys_nodup (s : Scope) : (Scope.keys (dedupKeys s)).Nodup := by
  induction s with
  | nil => simp [dedupKeys, Scope.keys]
  | cons x xs ih =>
    obtain ⟨a, v⟩ := x
    by_cases hmem : Scope.containsKey xs a
    · simpa [dedupKeys, hmem] using ih
    · simp only [dedupKeys, hmem, Bool.false_eq_true, if_false]
      refine List.Nodup.cons ?_ ih
      intro hk
      have hsome : (Scope.find? (dedupKeys xs) a).isSome = true :=
        find?_isSome_of_mem_keys _ _ (by simpa [Scope.keys] using hk)
      rw [dedupKeys_sound] at hsome
      rw [containsKey_eq_isSome] at hmem
      simp [hsome] at hmem

theorem dedupKeys_self_of_nodup (s : Scope) (h : (Scope.keys s).Nodup) : dedupKeys s = s := by
  induction s with
  | nil => simp [dedupKeys]
  | cons x xs ih =>
    obtain ⟨a, v⟩ := x
    simp only [Scope.keys, List.map_cons, List.nodup_cons] at h
    have hmem : Scope.containsKey xs a = false := by
      rw [containsKey_eq_isSome]
      by_cases hs : (Scope.find? xs a).isSome = true
      · exact absurd (mem_keys_of_find?_isSome _ _ hs) (by simpa [Scope.keys] using h.1)
      · simpa using hs
    simp [dedupKeys, hmem, ih h.2]

/-- The dict-merge lookup law: in `toolz.merge(a, b)` the entries of `b` win. -/
theorem find?_merge2 (a b : Scope) (k : Expr)
    (ha : (Scope.keys a).Nodup) (hb : (Scope.keys b).Nodup) :
    Scope.find? (Scope.merge2 a b) k = ((Scope.find? b k).orElse (fun _ => Scope.find? a k)) := by
  induction a with
  | nil =>
    rw [Scope.merge2, List.nil_append, dedupKeys_self_of_nodup b hb]
    cases h : Scope.find? b k with
    | none => rw [option_orElse_none]; rfl
    | some v => rw [option_orElse_some]
  | cons x xs ih =>
    obtain ⟨a0, v0⟩ := x
    simp only [Scope.keys, List.map_cons, List.nodup_cons] at ha
    have ihx := ih ha.2
    rw [show Scope.merge2 ((a0, v0) :: xs) b = dedupKeys ((a0, v0) :: (xs ++ b)) from rfl]
    by_cases hx : Scope.containsKey (xs ++ b) a0
    · simp only [dedupKeys, hx, if_true]
      rw [show dedupKeys (xs ++ b) = Scope.merge2 xs b from rfl, ihx]
      by_cases h : a0 = k
      · subst h
        have hxs : Scope.find? xs a0 = none := by
          cases hfx : Scope.find? xs a0 with
          | none => rfl
          | some v =>
            exact absurd (mem_keys_of_find?_isSome _ _ (by rw [hfx]; rfl))
              (by simpa [Scope.keys] using ha.1)
        have hbk : (Scope.find? b a0).isSome = true := by
          rw [containsKey_eq_isSome, scope_find?_append, hxs, option_orElse_none] at hx
          exact hx
        cases hfb : Scope.find? b a0 with
        | none => simp [hfb] at hbk
        | some v => rw [option_orElse_some, option_orElse_some]
      · rw [find?_cons_ne _ _ _ _ h]
    · simp only [dedupKeys, hx, Bool.false_eq_true, if_false]
      rw [show dedupKeys (xs ++ b) = Scope.merge2 xs b from rfl]
      by_cases h : a0 = k
      · subst h
        have hbk : Scope.find? b a0 = none := by
          cases hfb : Scope.find? b a0 with
          | none => rfl
          | some v =>
            rw [containsKey_eq_isSome, scope_find?_append] at hx
            rw [hfb] at hx
            cases hfx : Scope.find? xs a0 with
            | none => rw [hfx, option_orElse_none] at hx; simp at hx
            | some w => rw [hfx, option_orElse_some] at hx; simp at hx
        rw [find?_cons_self, hbk, option_orElse_none, find?_cons_self]
      · rw [find?_cons_ne _ _ _ _ h, find?_cons_ne _ _ _ _ h, ihx]

theorem lookupCache_cons_self (k s : Expr) (rest : List (Expr × Expr)) :
    lookupCache ((k, s) :: rest) k = some s := by
  unfold lookupCache
  rw [List.find?_cons_of_pos]
  · rfl
  · simp

theorem lookupCache_cons_ne (a k s : Expr) (rest : List (Expr × Expr)) (h : a ≠ k) :
    lookupCache ((a, s) :: rest) k = lookupCache rest k := by
  unfold lookupCache
  rw [List.find?_cons_of_neg]
  simp [h]

theorem lookupCache_append (c1 c2 : List (Expr × Expr)) (e : Expr) :
    lookupCache (c1 ++ c2) e = ((lookupCache c1 e).orElse (fun _ => lookupCache c2 e)) := by
  induction c1 with
  | nil => simp [lookupCache, option_orElse_none]
  | cons x xs ih =>
    obtain ⟨a, s⟩ := x
    by_cases h : a = e
    · subst h
      rw [List.cons_append, lookupCache_cons_self, lookupCache_cons_self, option_orElse_some]
    · rw [List.cons_append, lookupCache_cons_ne _ _ _ _ h, lookupCache_cons_ne _ _ _ _ h, ih]

theorem subs_nil_aux : ∀ n : Nat,
    (∀ e : Expr, Expr.esize e ≤ n → Expr.subs [] e = e) ∧
    (∀ l : List Expr, Expr.esizeList l ≤ n → Expr.subsList [] l = l) := by
  intro n
  induction n with
  | zero =>
    constructor
    · intro e h
      exact absurd (le_trans (Expr.esize_pos e) h) (by omega)
    · intro l h
      cases l with
      | nil => simp [Expr.subsList]
      | cons x xs =>
        exfalso
        have := Expr.esize_pos x
        simp [Expr.esizeList] at h
        omega
  | succ n ih =>
    constructor
    · intro e h
      cases e with
      | symbol nm sh t => simp [Expr.subs, List.find?]
      | dataLeaf nm sh d => simp [Expr.subs, List.find?]
      | app k nm sh xs =>
        have hxs : Expr.esizeList xs ≤ n := by simp [Expr.esize] at h; omega
        have hnil : Expr.subsList [] xs = xs := by
          cases hn : xs with
          | nil => simp [Expr.subsList]
          | cons y ys => rw [← hn]; exact ih.2 xs (by omega)
        simp [Expr.subs, List.find?, hnil]
    · intro l h
      cases l with
      | nil => simp [Expr.subsList]
      | cons x xs =>
        have hx : Expr.esize x ≤ n + 1 := by simp [Expr.esizeList] at h; omega
        have hxs : Expr.esizeList xs ≤ n := by
          have := Expr.esize_pos x
          simp [Expr.esizeList] at h; omega
        have hhd : Expr.subs [] x = x := by
          rcases Nat.lt_or_ge (Expr.esize x) (n + 1) with hlt | hge
          · exact ih.1 x (by omega)
          · have hxeq : Expr.esize x = n + 1 := by omega
            cases x with
            | symbol nm sh t => simp [Expr.subs, List.find?]
            | dataLeaf nm sh d => simp [Expr.subs, List.find?]
            | app k nm sh ys =>
              have hys : Expr.esizeList ys ≤ n := by simp [Expr.esize] at hxeq; omega
              have : Expr.subsList [] ys = ys := ih.2 ys hys
              simp [Expr.subs, List.find?, this]
        simp [Expr.subsList, hhd, ih.2 xs hxs]

/-- Substitution with the empty mapping is the identity (`expr._subs({})`). -/
theorem subs_nil (e : Expr) : Expr.subs [] e = e :=
  (subs_nil_aux (Expr.esize e)).1 e (le_refl _)

/-! ### Lemmas about the Leaf Allocator -/

theorem scanTok_free (name : String) (used : List (String × Option Nat)) :
    ∀ (fuel k : Nat), (name, (some (k + fuel) : Option Nat)) ∉ used →
      (name, (some (scanTok name used fuel k) : Option Nat)) ∉ used := by
  intro fuel
  induction fuel with
  | zero =>
    intro k h
    simpa [scanTok] using h
  | succ m ih =>
    intro k h
    by_cases hk : (name, (some k : Option Nat)) ∈ used
    · rw [scanTok, if_pos hk]
      have h2 : (name, (some (k + 1 + m) : Option Nat)) ∉ used := by
        have heq : k + 1 + m = k + (m + 1) := by omega
        rw [heq]
        exact h
      exact ih (k + 1) h2
    · rw [scanTok, if_neg hk]
      exact hk

theorem maxTokFor_bound (name : String) (used : List (String × Option Nat)) (t : Nat) :
    (name, (some t : Option Nat)) ∈ used → t < maxTokFor name used := by
  induction used with
  | nil => simp
  | cons x xs ih =>
    obtain ⟨n0, t0⟩ := x
    intro hmem
    rcases List.mem_cons.mp hmem with heq | htail
    · injection heq with h1 h2
      subst h1
      subst h2
      simp only [maxTokFor, if_true]
      exact lt_of_lt_of_le (by omega) (le_max_left _ _)
    · exact lt_of_lt_of_le (ih htail) (by simp only [maxTokFor]; exact le_max_right _ _)

/-- The token `makeleaf` assigns for a fresh allocation is not yet used:
the `(name, token)` freshness invariant of the allocator. -/
theorem freshTok_fresh (name : String) (used : List (String × Option Nat)) :
    (name, freshTok name used) ∉ used := by
  unfold freshTok
  by_cases h : (name, (none : Option Nat)) ∈ used
  · rw [if_pos h]
    apply scanTok_free
    intro hc
    have := maxTokFor_bound name used _ hc
    omega
  · rw [if_neg h]
    exact h

theorem makeleaf_cached (st : LeafState) (e s : Expr) (h : lookupCache st.cache e = some s) :
    makeleaf st e = (s, st) := by
  simp [makeleaf, h]

theorem makeleaf_fresh (st : LeafState) (e : Expr) (h : lookupCache st.cache e = none) :
    makeleaf st e =
      (Expr.symbol (leafName e) (Expr.exprShape e) (freshTok (leafName e) st.used),
       ⟨st.cache ++ [(e, Expr.symbol (leafName e) (Expr.exprShape e) (freshTok (leafName e) st.used))],
        st.used ++ [(leafName e, freshTok (leafName e) st.used)]⟩) := by
  simp [makeleaf, h]

/-- Well-formedness of the allocator state, as established by `_reset_leaves()`
and preserved by every `makeleaf` call: every cached symbol's `(name, token)`
pair is recorded as used, carries the display name of its source expression,
and distinct source expressions hold distinct pairs. -/
structure AllocWF (st : LeafState) : Prop where
  pairs_used : ∀ e s, lookupCache st.cache e = some s →
    (Expr.symNameOf s, Expr.symTokenOf s) ∈ st.used
  name_eq : ∀ e s, lookupCache st.cache e = some s → Expr.symNameOf s = leafName e
  inj : ∀ a b sa sb, lookupCache st.cache a = some sa → lookupCache st.cache b = some sb →
    a ≠ b → (Expr.symNameOf sa, Expr.symTokenOf sa) ≠ (Expr.symNameOf sb, Expr.symTokenOf sb)

theorem allocWF_reset : AllocWF LeafState.reset := by
  constructor
  · intro e s h
    simp [lookupCache, LeafState.reset] at h
  · intro e s h
    simp [lookupCache, LeafState.reset] at h
  · intro a b sa sb ha hb hne
    simp [lookupCache, LeafState.reset] at ha

theorem type_change_nonprim (old new : List Val) (h : (old ++ new).all isBase = false) :
    type_change old new =
      (if old.length != new.length then true
       else !((List.zipWith issubtype (new.map Val.valType) (old.map Val.valType)).all id)) := by
  simp [type_change, h]

/-! ### The claims -/

/-- C2 (counterexample): the claim describes `type_change` as ordering both
value lists by a canonical type ordering before the pairwise subtype
comparison.  On `old = [[1], 2]`, `new = [3, [4]]` — same length, not all
primitive, and the same multiset of runtime types on both sides, so that under
every canonical type ordering the aligned pairs are (int, int), (list, list)
and compatible — the described detector reports no break, yet `type_change`
compares positionally, aligns `int` against `list`, and returns `true`. -/
theorem c2_counterexample :
    type_change [Val.vList [Val.vInt 1], Val.vInt 2] [Val.vInt 3, Val.vList [Val.vInt 4]] = true
    ∧ type_change_sorted [Val.vList [Val.vInt 1], Val.vInt 2]
        [Val.vInt 3, Val.vList [Val.vInt 4]] = false := by
  constructor
  · decide
  · decide

/-- C2 (amended): `type_change(old, new)` returns false whenever every value in
both lists is a primitive scalar, even for lists of different lengths; returns
true whenever the lists (not all primitive) differ in length; and otherwise
pairwise-compares the two lists' runtime types positionally, in their given
order (the sorting by a canonical type ordering happens at the call site in
`bottom_up_until_type_break`, not inside `type_change`), with the
subtype-compatible predicate `issubtype`, returning true exactly when some
aligned pair is incompatible.  In particular `type_change([1, 2], [3, 4])` is
false, `type_change([1, 2], [3, [1, 2, 3]])` is true, and
`type_change([[1, 2]], [iter([1, 2])])` is false. -/
theorem c2_type_change : ∀ old new : List Val,
    ((old ++ new).all isBase = true → type_change old new = false)
    ∧ ((old ++ new).all isBase = false → old.length ≠ new.length → type_change old new = true)
    ∧ ((old ++ new).all isBase = false → old.length = new.length →
        type_change old new
          = !((List.zipWith issubtype (new.map Val.valType) (old.map Val.valType)).all id))
    ∧ type_change [Val.vInt 1, Val.vInt 2] [Val.vInt 3, Val.vInt 4] = false
    ∧ type_change [Val.vInt 1, Val.vInt 2]
        [Val.vInt 3, Val.vList [Val.vInt 1, Val.vInt 2, Val.vInt 3]] = true
    ∧ type_change [Val.vList [Val.vInt 1, Val.vInt 2]] [Val.vIter [Val.vInt 1, Val.vInt 2]]
        = false := by
  intro old new
  refine ⟨?_, ?_, ?_, by decide, by decide, by decide⟩
  · intro h
    simp [type_change, h]
  · intro h1 h2
    rw [type_change_nonprim old new h1, if_pos]
    simpa [bne_iff_ne] using h2
  · intro h1 h2
    rw [type_change_nonprim old new h1, if_neg]
    simp [bne_iff_ne, h2]

/-- Witness for C2: the length-mismatch branch at a concrete non-primitive
input. -/
theorem c2_type_change_witness :
    (([Val.vNone] ++ [Val.vNone, Val.vNone]).all isBase = false
      ∧ [Val.vNone].length ≠ [Val.vNone, Val.vNone].length)
    ∧ type_change [Val.vNone] [Val.vNone, Val.vNone] = true :=
  ⟨⟨by decide, by decide⟩,
   (c2_type_change [Val.vNone] [Val.vNone, Val.vNone]).2.1 (by decide) (by decide)⟩

/-- C3 (code bug): evaluated at the failing input.  `compute(f(g(x)),
{x: [1]}, pre_compute=tagHook)` with `backendRegistry` ignores the configured
PreCompute override inside the fixpoint loop — the loop's re-application calls
the module-level default (core.py line 156 uses `pre_compute`, not the
extracted `pre_compute_`) and the recursive call on line 171 drops `**kwargs`
— so the result carries no tag mark, unlike the run in which the same hook is
installed as the module-level default, which tags every round.  The claim
(and §4.7/§4.5 of the spec) say the two runs should apply the same hook every
round. -/
theorem c3_override_dropped :
    computeDict backendRegistry tagConfig 8 fNode [(xSym, Val.vList [Val.vInt 1])]
      = .ok (.inr (Val.vList [Val.vOpaque "res" 0]))
    ∧ computeDict taggedRegistry Config.empty 8 fNode [(xSym, Val.vList [Val.vInt 1])]
      = .ok (.inr (Val.vTuple [Val.vList [Val.vTuple [Val.vOpaque "res" 0]]]))
    ∧ (Val.vList [Val.vOpaque "res" 0]
        ≠ Val.vTuple [Val.vList [Val.vTuple [Val.vOpaque "res" 0]]]) := by
  refine ⟨by decide, by decide, by decide⟩

/-- C4: the "unsupported" signal is "try the next strategy".  (i) When
ComputeDown signals `NotImplementedError` on the current expression and its
leaf values, the driver's next step is exactly the bottom-up continuation
`driverBottomUp` (which runs `bottom_up_until_type_break`) rather than a
propagated error.  (ii) When the effective Optimize hook signals
`NotImplementedError` inside the fixpoint loop, the expression is kept
unchanged.  (iii) Likewise at the entry point. -/
theorem c4_unsupported_routing :
    (∀ (R : Registry) (cfg : Config) (fuel : Nat) (e : Expr) (scope : Scope) (st : LeafState),
      Scope.find? scope e = none →
      R.compute_down e (leafData scope (Expr.leaves e)) = .error .notImplemented →
      driver R cfg (fuel + 1) e scope st
        = driverBottomUp R cfg (driver R Config.empty fuel) fuel e scope st)
    ∧ (∀ (opt : Expr → List Val → Except PyErr Expr) (ne : Expr) (s2 : Scope) (args : List Val),
        (Expr.leaves ne).mapM (Scope.getBang s2) = .ok args →
        opt ne args = .error .notImplemented →
        applyLoopOptimize (some opt) ne s2 = .ok ne)
    ∧ (∀ (opt : Expr → List Val → Except PyErr Expr) (e2 : Expr) (d3 : Scope),
        opt e2 (entryOptimizeArgs d3 e2) = .error .notImplemented →
        applyEntryOptimize (some opt) e2 d3 = .ok e2) := by
  refine ⟨?_, ?_, ?_⟩
  · intro R cfg fuel e scope st hnb hcd
    simp [driver, hnb, hcd]
  · intro opt ne s2 args hargs hopt
    unfold applyLoopOptimize
    rw [hargs]
    simp [Bind.bind, Except.bind, hopt]
  · intro opt e2 d3 hopt
    simp [applyEntryOptimize, hopt]

/-- Witness for C4: with the default registry, an unbound compound node with
one bound symbol leaf makes ComputeDown signal "unsupported", and the driver
routes to the bottom-up continuation. -/
theorem c4_unsupported_routing_witness :
    (Scope.find? [(xSym, Val.vInt 1)] addNode = none
      ∧ defaultRegistry.compute_down addNode
          (leafData [(xSym, Val.vInt 1)] (Expr.leaves addNode)) = .error .notImplemented)
    ∧ driver defaultRegistry Config.empty 1 addNode [(xSym, Val.vInt 1)] LeafState.reset
        = driverBottomUp defaultRegistry Config.empty (driver defaultRegistry Config.empty 0) 0
            addNode [(xSym, Val.vInt 1)] LeafState.reset :=
  ⟨⟨by decide, by decide⟩,
   c4_unsupported_routing.1 defaultRegistry Config.empty 0 addNode [(xSym, Val.vInt 1)]
     LeafState.reset (by decide) (by decide)⟩

/-- C5: the single-input form of `compute` binds the unique free symbol and
delegates to the mapping form: `compute(expr, o) = compute(expr, {s: o})`. -/
theorem c5_single_delegates (R : Registry) (cfg : Config) (fuel : Nat) (e s : Expr) (v : Val)
    (h : Expr.leaves e = [s]) :
    computeSingle R cfg fuel e v = computeDict R cfg fuel e [(s, v)] := by
  simp [computeSingle, h]

/-- Witness for C5 at a concrete one-symbol expression. -/
theorem c5_single_delegates_witness :
    (Expr.leaves addNode = [xSym])
    ∧ computeSingle defaultRegistry Config.empty 3 addNode (Val.vInt 1)
        = computeDict defaultRegistry Config.empty 3 addNode [(xSym, Val.vInt 1)] :=
  ⟨by decide,
   c5_single_delegates defaultRegistry Config.empty 3 addNode xSym (Val.vInt 1) (by decide)⟩

/-- C1: one step of the bottom-up partial evaluator on an expression not bound
in scope.  Given that the reduction of the distinct direct inputs succeeded
with `pairs` (one `(reduced-leaf, scope)` pair per input), the evaluator merges
the returned scopes (`mergedScope`), substitutes the reduced inputs
(`reducedSubst`), and: on a reported type break between the merged sub-scope's
values and the values of the original leaves in the incoming scope (`breakAt`),
returns the substituted expression and merged scope without invoking
ComputeUp; with no break, it invokes ComputeUp on the substituted expression
with the values of its inputs and returns the freshly allocated leaf for the
expression bound to the computed value as a singleton scope. -/
theorem c1_bottom_up_step (R : Registry) (fuel : Nat) (e : Expr) (scope : Scope)
    (st st1 : LeafState) (pairs : List (Expr × Scope)) (i0 : Expr) (is0 : List Expr)
    (hnb : Scope.find? scope e = none)
    (hinputs : uniqueList (Expr.exprInputs e) = i0 :: is0)
    (hred : buutbList (buutb R fuel) (i0 :: is0) scope st = .ok (pairs, st1)) :
    (breakAt e scope pairs = true →
      buutb R (fuel + 1) e scope st = .ok (reducedSubst e pairs, mergedScope pairs, st1))
    ∧ (∀ (args : List Val) (v : Val), breakAt e scope pairs = false →
        (Expr.exprInputs (reducedSubst e pairs)).mapM (Scope.getBang (mergedScope pairs))
          = .ok args →
        R.compute_up (reducedSubst e pairs) args (mergedScope pairs) = .ok v →
        buutb R (fuel + 1) e scope st
          = .ok ((makeleaf st1 e).1, [((makeleaf st1 e).1, v)], (makeleaf st1 e).2)) := by
  have hstep : buutb R (fuel + 1) e scope st = buutbStep R e scope pairs st1 := by
    rw [buutb, hnb, hinputs]
    show Bind.bind (buutbList (buutb R fuel) (i0 :: is0) scope st) _ = _
    rw [hred]
    rfl
  constructor
  · intro hbr
    rw [hstep]
    unfold buutbStep
    rw [if_pos hbr]
  · intro args v hbr hargs hcu
    rw [hstep]
    unfold buutbStep
    rw [if_neg (by simp [hbr])]
    rw [hargs]
    show ((R.compute_up (reducedSubst e pairs) args (mergedScope pairs)).bind _ : Except PyErr _) = _
    rw [hcu]
    rfl

/-- Witness for C1 at a concrete instance: `add(x)` over scope `{x: [1]}` with
a ComputeUp handler returning `5` takes the no-break branch and returns a fresh
leaf bound to the computed value. -/
theorem c1_bottom_up_step_witness :
    (Scope.find? [(xSym, Val.vList [Val.vInt 1])] addNode = none
      ∧ uniqueList (Expr.exprInputs addNode) = [xSym]
      ∧ buutbList (buutb constUpRegistry 1) [xSym] [(xSym, Val.vList [Val.vInt 1])]
          LeafState.reset
          = .ok ([(xSym, [(xSym, Val.vList [Val.vInt 1])])], ⟨[(xSym, xSym)], [("x", none)]⟩)
      ∧ breakAt addNode [(xSym, Val.vList [Val.vInt 1])]
          [(xSym, [(xSym, Val.vList [Val.vInt 1])])] = false)
    ∧ buutb constUpRegistry 2 addNode [(xSym, Val.vList [Val.vInt 1])] LeafState.reset
        = .ok ((makeleaf ⟨[(xSym, xSym)], [("x", none)]⟩ addNode).1,
               [((makeleaf ⟨[(xSym, xSym)], [("x", none)]⟩ addNode).1, Val.vInt 5)],
               (makeleaf ⟨[(xSym, xSym)], [("x", none)]⟩ addNode).2) :=
  ⟨⟨by decide, by decide, by decide, by decide⟩,
   (c1_bottom_up_step constUpRegistry 1 addNode [(xSym, Val.vList [Val.vInt 1])]
       LeafState.reset ⟨[(xSym, xSym)], [("x", none)]⟩
       [(xSym, [(xSym, Val.vList [Val.vInt 1])])] xSym [] (by decide) (by decide) (by decide)).2
     [Val.vList [Val.vInt 1]] (Val.vInt 5) (by decide) (by decide) (by decide)⟩

/-! ### The Ambiguous-Binding error is raised only by the single-input wrapper

With the default registry and empty configuration, no function of the engine
ever produces the Ambiguous-Binding `ValueError`: it can only arise from the
arity check of the single-input `compute` wrapper. -/

theorem getBang_err (s : Scope) (e : Expr) (err : PyErr)
    (h : Scope.getBang s e = .error err) : err = .keyError := by
  unfold Scope.getBang at h
  cases hf : Scope.find? s e with
  | some v => rw [hf] at h; cases h
  | none => rw [hf] at h; cases h; rfl

theorem mapM_getBang_err (s : Scope) : ∀ (l : List Expr) (err : PyErr),
    l.mapM (Scope.getBang s) = (.error err : Except PyErr (List Val)) → err = .keyError := by
  intro l
  induction l with
  | nil =>
    intro err h
    rw [List.mapM_nil] at h
    cases h
  | cons a as ih =>
    intro err h
    rw [List.mapM_cons] at h
    cases hg : Scope.getBang s a with
    | error e0 =>
      rw [hg] at h
      cases h
      exact getBang_err s a err hg
    | ok v =>
      rw [hg] at h
      cases hm : List.mapM (Scope.getBang s) as with
      | error e1 =>
        rw [hm] at h
        cases h
        exact ih err hm
      | ok vs =>
        rw [hm] at h
        cases h

theorem buutbStep_default_not_amb (e : Expr) (scope : Scope) (pairs : List (Expr × Scope))
    (st : LeafState) :
    buutbStep defaultRegistry e scope pairs st ≠ .error .valueErrorAmbiguous := by
  unfold buutbStep
  by_cases hbr : breakAt e scope pairs
  · rw [if_pos hbr]
    intro h
    cases h
  · rw [if_neg hbr]
    cases hm : (Expr.exprInputs (reducedSubst e pairs)).mapM
        (Scope.getBang (mergedScope pairs)) with
    | error err =>
      intro h
      have herr : err = PyErr.valueErrorAmbiguous := by injection h
      rw [mapM_getBang_err _ _ _ hm] at herr
      exact PyErr.noConfusion herr
    | ok args =>
      intro h
      exact PyErr.noConfusion
        (show PyErr.notImplemented = PyErr.valueErrorAmbiguous by injection h)

theorem buutbList_foldl_not_amb
    (recur : Expr → Scope → LeafState → Except PyErr (Expr × Scope × LeafState))
    (scope : Scope)
    (hrec : ∀ (i : Expr) (st0 : LeafState),
      recur i scope st0 ≠ .error .valueErrorAmbiguous) :
    ∀ (l : List Expr) (acc : Except PyErr (List (Expr × Scope) × LeafState)),
      acc ≠ .error .valueErrorAmbiguous →
      l.foldl (buutbListStep recur scope) acc ≠ .error .valueErrorAmbiguous := by
  intro l
  induction l with
  | nil =>
    intro acc hacc
    simpa using hacc
  | cons i is ih =>
    intro acc hacc
    rw [List.foldl_cons]
    apply ih
    unfold buutbListStep
    cases acc with
    | error e0 =>
      intro h
      exact hacc (by injection h with h2; rw [h2])
    | ok p =>
      obtain ⟨ps, st0⟩ := p
      show Bind.bind (recur i scope st0) _ ≠ _
      cases hr : recur i scope st0 with
      | error e1 =>
        intro h
        have he1 : e1 = PyErr.valueErrorAmbiguous := by injection h
        rw [he1] at hr
        exact hrec i st0 hr
      | ok triple =>
        obtain ⟨e1, s1, st1⟩ := triple
        intro h
        exact Except.noConfusion h

theorem buutb_default_not_amb : ∀ (fuel : Nat) (e : Expr) (scope : Scope) (st : LeafState),
    buutb defaultRegistry fuel e scope st ≠ .error .valueErrorAmbiguous := by
  intro fuel
  induction fuel with
  | zero =>
    intro e scope st h
    rw [buutb] at h
    cases h
  | succ n ih =>
    intro e scope st
    rw [buutb]
    cases hf : Scope.find? scope e with
    | some v =>
      intro h
      cases h
    | none =>
      cases hu : uniqueList (Expr.exprInputs e) with
      | nil =>
        intro h
        cases h
      | cons i is =>
        show Bind.bind (buutbList (buutb defaultRegistry n) (i :: is) scope st) _ ≠ _
        cases hb : buutbList (buutb defaultRegistry n) (i :: is) scope st with
        | error e0 =>
          intro h
          have he : e0 = PyErr.valueErrorAmbiguous := by injection h
          rw [he] at hb
          exact buutbList_foldl_not_amb (buutb defaultRegistry n) scope
            (fun i0 st0 => ih i0 scope st0) (i :: is) (.ok ([], st)) (by intro h2; cases h2) hb
        | ok p =>
          obtain ⟨pairs, st1⟩ := p
          show buutbStep defaultRegistry e scope pairs st1 ≠ _
          exact buutbStep_default_not_amb e scope pairs st1

theorem applyLoopOptimize_default_err (ne : Expr) (s2 : Scope) (err : PyErr)
    (h : applyLoopOptimize (some defaultRegistry.optimize) ne s2 = .error err) :
    err = .keyError := by
  unfold applyLoopOptimize at h
  cases hm : (Expr.leaves ne).mapM (Scope.getBang s2) with
  | error e0 =>
    rw [hm] at h
    have he0 : e0 = PyErr.keyError := mapM_getBang_err _ _ _ hm
    subst he0
    cases h
    rfl
  | ok args =>
    rw [hm] at h
    by_cases hl : args.length = 1
    · simp [defaultRegistry, hl, Bind.bind, Except.bind] at h
    · simp [defaultRegistry, hl, Bind.bind, Except.bind] at h

theorem eff_empty_opt (f : Expr → List Val → Except PyErr Expr) :
    KwOpt.eff Config.empty.optimizeKw f = some f := rfl

theorem eff_empty_pre (f : Expr → Val → Option Scope → Val) :
    KwOpt.eff Config.empty.preComputeKw f = some f := rfl

theorem driverBottomUp_default_not_amb
    (recur : Expr → Scope → LeafState → Except PyErr (Res × LeafState))
    (hrec : ∀ (e2 : Expr) (s2 : Scope) (st2 : LeafState),
      recur e2 s2 st2 ≠ .error .valueErrorAmbiguous)
    (fuel : Nat) (e : Expr) (scope : Scope) (st : LeafState) :
    driverBottomUp defaultRegistry Config.empty recur fuel e scope st
      ≠ .error .valueErrorAmbiguous := by
  unfold driverBottomUp
  show Bind.bind (buutb defaultRegistry fuel e scope st) _ ≠ _
  cases hb : buutb defaultRegistry fuel e scope st with
  | error e0 =>
    intro h
    have he : e0 = PyErr.valueErrorAmbiguous := by injection h
    rw [he] at hb
    exact buutb_default_not_amb fuel e scope st hb
  | ok triple =>
    obtain ⟨ne, ns, st1⟩ := triple
    show Bind.bind (applyLoopOptimize (KwOpt.eff Config.empty.optimizeKw defaultRegistry.optimize)
        ne (loopPreApply defaultRegistry Config.empty ne ns)) _ ≠ _
    cases ha : applyLoopOptimize (KwOpt.eff Config.empty.optimizeKw defaultRegistry.optimize)
        ne (loopPreApply defaultRegistry Config.empty ne ns) with
    | error e0 =>
      intro h
      have he : e0 = PyErr.valueErrorAmbiguous := by injection h
      rw [he] at ha
      have hk := applyLoopOptimize_default_err ne
        (loopPreApply defaultRegistry Config.empty ne ns) PyErr.valueErrorAmbiguous ha
      exact PyErr.noConfusion hk
    | ok ne2 =>
      exact hrec ne2 (loopPreApply defaultRegistry Config.empty ne ns) st1

theorem driver_default_not_amb : ∀ (fuel : Nat) (e : Expr) (scope : Scope) (st : LeafState),
    driver defaultRegistry Config.empty fuel e scope st ≠ .error .valueErrorAmbiguous := by
  intro fuel
  induction fuel with
  | zero =>
    intro e scope st h
    rw [driver] at h
    cases h
  | succ n ih =>
    intro e scope st
    rw [driver]
    cases hf : Scope.find? scope e with
    | some v =>
      intro h
      exact Except.noConfusion h
    | none =>
      cases hl : leafData scope (Expr.leaves e) with
      | nil =>
        intro h
        exact Except.noConfusion h
      | cons a as =>
        show driverBottomUp defaultRegistry Config.empty (driver defaultRegistry Config.empty n)
            n e scope st ≠ _
        exact driverBottomUp_default_not_amb _ (fun e2 s2 st2 => ih e2 s2 st2) n e scope st

theorem applyEntryOptimize_default (e2 : Expr) (d3 : Scope) :
    applyEntryOptimize (some defaultRegistry.optimize) e2 d3 = .ok e2 := by
  unfold applyEntryOptimize
  by_cases hl : (entryOptimizeArgs d3 e2).length = 1
  · simp [defaultRegistry, hl]
  · simp [defaultRegistry, hl]

theorem computeDict_default_not_amb (fuel : Nat) (e : Expr) (d : Scope) :
    computeDict defaultRegistry Config.empty fuel e d ≠ .error .valueErrorAmbiguous := by
  unfold computeDict
  rcases hsw : swap_resources_into_scope e d with ⟨e2, d2⟩
  show Bind.bind (applyEntryOptimize (KwOpt.eff Config.empty.optimizeKw defaultRegistry.optimize)
      e2 (d2.map (fun p => (p.1, defaultRegistry.pre_compute p.1 p.2 none)))) _ ≠ _
  rw [eff_empty_opt, applyEntryOptimize_default]
  show Bind.bind (driver defaultRegistry Config.empty fuel e2
      (d2.map (fun p => (p.1, defaultRegistry.pre_compute p.1 p.2 none))) LeafState.reset) _ ≠ _
  cases hd : driver defaultRegistry Config.empty fuel e2
      (d2.map (fun p => (p.1, defaultRegistry.pre_compute p.1 p.2 none))) LeafState.reset with
  | error e0 =>
    intro h
    have he : e0 = PyErr.valueErrorAmbiguous := by injection h
    rw [he] at hd
    exact driver_default_not_amb fuel e2 _ _ hd
  | ok p =>
    obtain ⟨r, stx⟩ := p
    intro h
    exact Except.noConfusion h

/-- C6: with the default registry and empty configuration, the single-input
form of `compute` fails with the Ambiguous-Binding `ValueError` if and only if
the number of free symbols of the expression is not exactly one; with exactly
one free symbol that error is never produced (the delegated mapping-form
computation can only fail with other errors). -/
theorem c6_ambiguous_iff : ∀ (fuel : Nat) (e : Expr) (v : Val),
    (computeSingle defaultRegistry Config.empty fuel e v = .error .valueErrorAmbiguous)
      ↔ (Expr.leaves e).length ≠ 1 := by
  intro fuel e v
  cases h : Expr.leaves e with
  | nil => simp [computeSingle, h]
  | cons s rest =>
    cases rest with
    | nil =>
      unfold computeSingle
      rw [h]
      constructor
      · intro hc
        exact absurd hc (computeDict_default_not_amb fuel e [(s, v)])
      · intro hlen
        exact (hlen rfl).elim
    | cons s2 rest2 => simp [computeSingle, h]

/-- C7 (counterexample): the claim quantifies over every scope mapping, but
when the scope binds the (symbol-free) expression itself, `compute` returns
the bound value — the driver's base case `if expr in scope: return scope[expr]`
fires — rather than the expression unchanged. -/
theorem c7_counterexample :
    computeDict defaultRegistry Config.empty 1 litNode [(litNode, Val.vInt 7)]
      = .ok (.inr (Val.vInt 7))
    ∧ ((.ok (.inr (Val.vInt 7)) : Except PyErr Res) ≠ .ok (.inl litNode))
    ∧ Expr.leaves litNode = [] := by
  refine ⟨by decide, by decide, by decide⟩

/-- C7 (amended): `compute(expr, d)` on an expression with no free symbols (and
no attached-data leaves) returns the expression unchanged — via the
single-argument `compute_down` fallback — for every scope mapping `d` that does
not bind `expr` itself. -/
theorem c7_no_symbols (fuel : Nat) (e : Expr) (d : Scope)
    (hnodup : (Scope.keys d).Nodup)
    (hleaves : Expr.leaves e = [])
    (hres : Expr.resourcesList e = [])
    (hnb : Scope.find? d e = none) :
    computeDict defaultRegistry Config.empty (fuel + 1) e d = .ok (.inl e) := by
  have hres2 : Expr.resources e = [] := by rw [Expr.resources, hres]; rfl
  have hsd : resourceSymbolDict e = [] := by rw [resourceSymbolDict, hres2]; rfl
  have hdr : derivedResourceScope e = [] := by rw [derivedResourceScope, hres2]; rfl
  have hswap : swap_resources_into_scope e d = (e, d) := by
    unfold swap_resources_into_scope
    rw [hsd, hdr, subs_nil]
    show (e, dedupKeys ([] ++ d)) = (e, d)
    rw [List.nil_append, dedupKeys_self_of_nodup d hnodup]
  have hpre : entryPreApply defaultRegistry Config.empty d = d := by
    unfold entryPreApply
    rw [eff_empty_pre]
    show d.map (fun p => (p.1, defaultRegistry.pre_compute p.1 p.2 none)) = d
    have hfun : (fun p : Expr × Val => (p.1, defaultRegistry.pre_compute p.1 p.2 none))
        = fun p : Expr × Val => p := by
      funext p
      rfl
    rw [hfun, List.map_id']
  unfold computeDict
  rw [hswap]
  show Bind.bind (applyEntryOptimize (KwOpt.eff Config.empty.optimizeKw defaultRegistry.optimize)
      e (entryPreApply defaultRegistry Config.empty d)) _ = _
  rw [hpre, eff_empty_opt, applyEntryOptimize_default]
  show Bind.bind (driver defaultRegistry Config.empty (fuel + 1) e d LeafState.reset) _ = _
  rw [driver, hnb, hleaves]
  rfl

/-- Witness for C7 (amended) at a concrete symbol-free expression and a
disjoint scope. -/
theorem c7_no_symbols_witness :
    ((Scope.keys [(xSym, Val.vInt 3)]).Nodup
      ∧ Expr.leaves litNode = []
      ∧ Expr.resourcesList litNode = []
      ∧ Scope.find? [(xSym, Val.vInt 3)] litNode = none)
    ∧ computeDict defaultRegistry Config.empty 1 litNode [(xSym, Val.vInt 3)]
        = .ok (.inl litNode) :=
  ⟨⟨by decide, by decide, by decide, by decide⟩,
   c7_no_symbols 0 litNode [(xSym, Val.vInt 3)] (by decide) (by decide) (by decide) (by decide)⟩

/-- C8: the Resource Binder substitutes a plain same-name, same-shape symbol
for each data-carrying leaf (`resourceSymbolDict`), the returned scope resolves
a key to the caller-supplied binding when the caller's scope has it and to the
derived symbol-to-data binding otherwise, and on the concrete interactive leaf
`t` with data `[1, 2, 3]` it produces the plain symbol `t` and the scope
`{t: [1, 2, 3]}`. -/
theorem c8_resource_binder : ∀ (e : Expr) (scope : Scope), (Scope.keys scope).Nodup →
    ((swap_resources_into_scope e scope).1 = Expr.subs (resourceSymbolDict e) e
      ∧ (∀ k : Expr, Scope.find? (swap_resources_into_scope e scope).2 k
          = ((Scope.find? scope k).orElse (fun _ => Scope.find? (derivedResourceScope e) k))))
    ∧ swap_resources_into_scope tData []
        = (Expr.symbol "t" "3 * int" none,
           [(Expr.symbol "t" "3 * int" none, Val.vList [Val.vInt 1, Val.vInt 2, Val.vInt 3])]) := by
  intro e scope hnodup
  refine ⟨⟨rfl, ?_⟩, by decide⟩
  intro k
  show Scope.find? (Scope.merge2 (derivedResourceScope e) scope) k = _
  exact find?_merge2 (derivedResourceScope e) scope k
    (by unfold derivedResourceScope; exact dedupKeys_keys_nodup _) hnodup

/-- Witness for C8: a caller-supplied binding for the derived symbol `t` wins
over the attached data on key collision. -/
theorem c8_resource_binder_witness :
    ((Scope.keys [(Expr.symbol "t" "3 * int" none, Val.vInt 9)]).Nodup)
    ∧ Scope.find?
        (swap_resources_into_scope tData [(Expr.symbol "t" "3 * int" none, Val.vInt 9)]).2
        (Expr.symbol "t" "3 * int" none)
      = ((Scope.find? [(Expr.symbol "t" "3 * int" none, Val.vInt 9)]
            (Expr.symbol "t" "3 * int" none)).orElse
         (fun _ => Scope.find? (derivedResourceScope tData) (Expr.symbol "t" "3 * int" none))) :=
  ⟨by decide,
   ((c8_resource_binder tData [(Expr.symbol "t" "3 * int" none, Val.vInt 9)] (by decide)).1.2
     (Expr.symbol "t" "3 * int" none))⟩

/-- C10: an expression leaf with no binding in the incoming scope does not
raise a lookup error in the shared leaf-value collection of
`bottom_up_until_type_break` and the fixpoint driver: Python's total
`scope.get(leaf)` (embedded as `Scope.getNone`) contributes `None` for it, and
since `None` is not a primitive scalar, its presence in the old-values side
forces `type_change` past the all-primitive shortcut into the length and
pairwise type comparison. -/
theorem c10_unbound_leaf :
    (isBase Val.vNone = false)
    ∧ (∀ (scope : Scope) (e : Expr) (l : Expr),
        l ∈ Expr.leaves e → Scope.find? scope l = none →
        Val.vNone ∈ oldLeafData e scope)
    ∧ (∀ (scope : Scope) (leaves : List Expr) (l : Expr),
        l ∈ leaves → Scope.find? scope l = none →
        Val.vNone ∈ leafData scope leaves)
    ∧ (∀ old new : List Val, Val.vNone ∈ old →
        type_change old new
          = (if old.length != new.length then true
             else !((List.zipWith issubtype (new.map Val.valType)
                      (old.map Val.valType)).all id))) := by
  have hcollect : ∀ (scope : Scope) (leaves : List Expr) (l : Expr),
      l ∈ leaves → Scope.find? scope l = none → Val.vNone ∈ leafData scope leaves := by
    intro scope leaves l hl hnb
    unfold leafData
    refine List.mem_map.mpr ⟨l, hl, ?_⟩
    rw [Scope.getNone, hnb]
    rfl
  refine ⟨rfl, ?_, hcollect, ?_⟩
  · intro scope e l hl hnb
    exact hcollect scope (Expr.leaves e) l hl hnb
  · intro old new hmem
    apply type_change_nonprim
    rw [List.all_eq_false]
    refine ⟨Val.vNone, List.mem_append.mpr (Or.inl hmem), ?_⟩
    decide

/-- Witness for C10: the unbound symbol leaf of `add(x)` under the empty scope
contributes `None`, and a `None` on the old side forces the non-primitive
comparison path. -/
theorem c10_unbound_leaf_witness :
    (xSym ∈ Expr.leaves addNode ∧ Scope.find? [] xSym = none
      ∧ Val.vNone ∈ ([Val.vNone] : List Val))
    ∧ Val.vNone ∈ oldLeafData addNode []
    ∧ type_change [Val.vNone] [Val.vInt 1]
        = (if ([Val.vNone] : List Val).length != ([Val.vInt 1] : List Val).length then true
           else !((List.zipWith issubtype ([Val.vInt 1].map Val.valType)
                    ([Val.vNone].map Val.valType)).all id)) :=
  ⟨⟨by decide, by decide, by decide⟩,
   c10_unbound_leaf.2.1 [] addNode xSym (by decide) (by decide),
   c10_unbound_leaf.2.2.2 [Val.vNone] [Val.vInt 1] (by decide)⟩

/-- Repeated allocation for the structurally identical expression returns the
same symbol without touching the allocator state. -/
theorem makeleaf_memo (st : LeafState) (e : Expr) :
    makeleaf (makeleaf st e).2 e = makeleaf st e := by
  cases h : lookupCache st.cache e with
  | some s =>
    rw [makeleaf_cached st e s h]
    exact makeleaf_cached st e s h
  | none =>
    rw [makeleaf_fresh st e h]
    apply makeleaf_cached
    show lookupCache (st.cache ++ [(e, _)]) e = _
    rw [lookupCache_append, h, option_orElse_none, lookupCache_cons_self]

/-- C9: within one evaluation (from a well-formed allocator state, as
`_reset_leaves()` establishes), `makeleaf` is memoized by structural identity
— a repeated request for the identical expression returns the same symbol with
the state unchanged — and no `(name, token)` pair is assigned twice: two
requests for structurally distinct expressions sharing a display name return
non-identical symbols with the same name and different tokens. -/
theorem c9_allocator (st : LeafState) (e1 e2 : Expr) (hwf : AllocWF st) (hne : e1 ≠ e2)
    (hname : leafName e1 = leafName e2) :
    makeleaf (makeleaf st e1).2 e1 = makeleaf st e1
    ∧ Expr.symNameOf (makeleaf (makeleaf st e1).2 e2).1 = Expr.symNameOf (makeleaf st e1).1
    ∧ Expr.symTokenOf (makeleaf (makeleaf st e1).2 e2).1 ≠ Expr.symTokenOf (makeleaf st e1).1
    ∧ (makeleaf (makeleaf st e1).2 e2).1 ≠ (makeleaf st e1).1 := by
  refine ⟨makeleaf_memo st e1, ?_⟩
  have assemble : ∀ s1 s2 : Expr,
      Expr.symNameOf s2 = Expr.symNameOf s1 →
      (Expr.symNameOf s2, Expr.symTokenOf s2) ≠ (Expr.symNameOf s1, Expr.symTokenOf s1) →
      Expr.symNameOf s2 = Expr.symNameOf s1
        ∧ Expr.symTokenOf s2 ≠ Expr.symTokenOf s1 ∧ s2 ≠ s1 := by
    intro s1 s2 hn hp
    have ht : Expr.symTokenOf s2 ≠ Expr.symTokenOf s1 := by
      intro ht
      exact hp (by rw [hn, ht])
    exact ⟨hn, ht, fun hs => ht (congrArg Expr.symTokenOf hs)⟩
  cases h1 : lookupCache st.cache e1 with
  | some s1 =>
    have m1 : makeleaf st e1 = (s1, st) := makeleaf_cached st e1 s1 h1
    have hn1 : Expr.symNameOf s1 = leafName e1 := hwf.name_eq e1 s1 h1
    have hp1 : (Expr.symNameOf s1, Expr.symTokenOf s1) ∈ st.used := hwf.pairs_used e1 s1 h1
    rw [m1]
    show Expr.symNameOf (makeleaf st e2).1 = Expr.symNameOf s1
      ∧ Expr.symTokenOf (makeleaf st e2).1 ≠ Expr.symTokenOf s1
      ∧ (makeleaf st e2).1 ≠ s1
    cases h2 : lookupCache st.cache e2 with
    | some s2 =>
      have m2 : makeleaf st e2 = (s2, st) := makeleaf_cached st e2 s2 h2
      have hn2 : Expr.symNameOf s2 = leafName e2 := hwf.name_eq e2 s2 h2
      rw [m2]
      exact assemble s1 s2 (by rw [hn1, hn2, hname])
        (hwf.inj e2 e1 s2 s1 h2 h1 (Ne.symm hne))
    | none =>
      have m2 := makeleaf_fresh st e2 h2
      rw [m2]
      apply assemble
      · show leafName e2 = Expr.symNameOf s1
        rw [hn1, hname]
      · show (leafName e2, freshTok (leafName e2) st.used)
          ≠ (Expr.symNameOf s1, Expr.symTokenOf s1)
        intro hp
        have : (leafName e2, freshTok (leafName e2) st.used) ∈ st.used := by
          rw [hp]
          exact hp1
        exact freshTok_fresh (leafName e2) st.used this
  | none =>
    have m1 := makeleaf_fresh st e1 h1
    rw [m1]
    show Expr.symNameOf (makeleaf
        (⟨st.cache ++ [(e1, Expr.symbol (leafName e1) (Expr.exprShape e1)
            (freshTok (leafName e1) st.used))],
          st.used ++ [(leafName e1, freshTok (leafName e1) st.used)]⟩ : LeafState) e2).1
        = leafName e1
      ∧ Expr.symTokenOf (makeleaf
          (⟨st.cache ++ [(e1, Expr.symbol (leafName e1) (Expr.exprShape e1)
              (freshTok (leafName e1) st.used))],
            st.used ++ [(leafName e1, freshTok (leafName e1) st.used)]⟩ : LeafState) e2).1
          ≠ freshTok (leafName e1) st.used
      ∧ (makeleaf
          (⟨st.cache ++ [(e1, Expr.symbol (leafName e1) (Expr.exprShape e1)
              (freshTok (leafName e1) st.used))],
            st.used ++ [(leafName e1, freshTok (leafName e1) st.used)]⟩ : LeafState) e2).1
          ≠ Expr.symbol (leafName e1) (Expr.exprShape e1) (freshTok (leafName e1) st.used)
    have h2' : lookupCache (st.cache ++ [(e1, Expr.symbol (leafName e1) (Expr.exprShape e1)
        (freshTok (leafName e1) st.used))]) e2 = lookupCache st.cache e2 := by
      rw [lookupCache_append]
      cases hc : lookupCache st.cache e2 with
      | some s2 => rw [option_orElse_some]
      | none =>
        rw [option_orElse_none, lookupCache_cons_ne _ _ _ _ hne]
        rfl
    have hassemble2 : ∀ s2 : Expr,
        Expr.symNameOf s2 = leafName e1 →
        (Expr.symNameOf s2, Expr.symTokenOf s2) ≠ (leafName e1, freshTok (leafName e1) st.used) →
        Expr.symNameOf s2 = leafName e1
          ∧ Expr.symTokenOf s2 ≠ freshTok (leafName e1) st.used
          ∧ s2 ≠ Expr.symbol (leafName e1) (Expr.exprShape e1) (freshTok (leafName e1) st.used) := by
      intro s2 hn hp
      have ht : Expr.symTokenOf s2 ≠ freshTok (leafName e1) st.used := by
        intro ht
        exact hp (by rw [hn, ht])
      refine ⟨hn, ht, ?_⟩
      intro hs
      apply ht
      rw [hs]
      rfl
    cases h2 : lookupCache st.cache e2 with
    | some s2 =>
      have m2 : makeleaf (⟨st.cache ++ [(e1, Expr.symbol (leafName e1) (Expr.exprShape e1)
          (freshTok (leafName e1) st.used))],
            st.used ++ [(leafName e1, freshTok (leafName e1) st.used)]⟩ : LeafState) e2
          = (s2, ⟨st.cache ++ [(e1, Expr.symbol (leafName e1) (Expr.exprShape e1)
              (freshTok (leafName e1) st.used))],
            st.used ++ [(leafName e1, freshTok (leafName e1) st.used)]⟩) := by
        apply makeleaf_cached
        show lookupCache (st.cache ++ [(e1, _)]) e2 = _
        rw [h2']
        exact h2
      rw [m2]
      apply hassemble2
      · show Expr.symNameOf s2 = leafName e1
        rw [hwf.name_eq e2 s2 h2, hname]
      · intro hp
        have hfresh := freshTok_fresh (leafName e1) st.used
        rw [← hp] at hfresh
        exact hfresh (hwf.pairs_used e2 s2 h2)
    | none =>
      have h2'' : lookupCache (st.cache ++ [(e1, Expr.symbol (leafName e1) (Expr.exprShape e1)
          (freshTok (leafName e1) st.used))]) e2 = none := by
        rw [h2']
        exact h2
      have m2 := makeleaf_fresh (⟨st.cache ++ [(e1, Expr.symbol (leafName e1) (Expr.exprShape e1)
          (freshTok (leafName e1) st.used))],
            st.used ++ [(leafName e1, freshTok (leafName e1) st.used)]⟩ : LeafState) e2 h2''
      rw [m2]
      apply hassemble2
      · show leafName e2 = leafName e1
        rw [hname]
      · show (leafName e2, freshTok (leafName e2)
            (st.used ++ [(leafName e1, freshTok (leafName e1) st.used)]))
          ≠ (leafName e1, freshTok (leafName e1) st.used)
        intro hp
        have hfresh := freshTok_fresh (leafName e2)
          (st.used ++ [(leafName e1, freshTok (leafName e1) st.used)])
        rw [hp] at hfresh
        exact hfresh (List.mem_append.mpr (Or.inr (List.mem_singleton.mpr rfl)))

/-- Witness for C9: from the reset state, the two structurally distinct
empty-name nodes `g(x)` and `f(g(x))` both display as `_` and receive the same
name with the tokens `None` and `0`. -/
theorem c9_allocator_witness :
    (gNode ≠ fNode ∧ leafName gNode = leafName fNode)
    ∧ makeleaf (makeleaf LeafState.reset gNode).2 gNode = makeleaf LeafState.reset gNode
    ∧ Expr.symNameOf (makeleaf (makeleaf LeafState.reset gNode).2 fNode).1
        = Expr.symNameOf (makeleaf LeafState.reset gNode).1
    ∧ Expr.symTokenOf (makeleaf (makeleaf LeafState.reset gNode).2 fNode).1
        ≠ Expr.symTokenOf (makeleaf LeafState.reset gNode).1
    ∧ (makeleaf (makeleaf LeafState.reset gNode).2 fNode).1
        ≠ (makeleaf LeafState.reset gNode).1 :=
  ⟨⟨by decide, by decide⟩,
   c9_allocator LeafState.reset gNode fNode allocWF_reset (by decide) (by decide)⟩

end BlazeCore
